import Mathlib

/-!
Verification of the bugbot-buster reconciliation core: a shallow embedding of
the progress ledger (`tracker.ts`), the eligibility filter and reconciliation
loop (`index.ts` / `run`), the structured-output extraction of the validity
classifier and resolution checker (`ai.ts`), and the commit-and-push boundary
(`github.ts`), together with theorems settling the specified properties.
-/

set_option maxRecDepth 4000

/-- One review comment, as fetched from the comment store
(`types.ts` / `PRComment`; the `threadId` field of the newer variant is
irrelevant to the properties proved here and omitted). -/
structure PRComment where
  id : Nat
  path : String
  line : Option Nat
  body : String
  author : String
  url : String
  createdAt : String
  isResolved : Bool
deriving Repr, DecidableEq

/-- One append-only run summary (`types.ts` / `RunRecord`). -/
structure RunRecord where
  timestamp : String
  commentsFound : Nat
  commentsAddressed : Nat
  commitSha : Option String
deriving Repr, DecidableEq

/-- The durable progress ledger (`types.ts` / `BusterState`). -/
structure BusterState where
  addressedCommentIds : List Nat
  ignoredCommentIds : List Nat
  lastRun : String
  runs : List RunRecord
deriving Repr, DecidableEq

/-- `tracker.ts` / `markAddressed`: append the ids not already present to the
addressed list. -/
def markAddressed (state : BusterState) (commentIds : List Nat) : BusterState :=
  let newIds := commentIds.filter (fun id => !state.addressedCommentIds.contains id)
  { state with addressedCommentIds := state.addressedCommentIds ++ newIds }

/-- `tracker.ts` / `markIgnored`: append the ids not already present to the
ignored list. -/
def markIgnored (state : BusterState) (commentIds : List Nat) : BusterState :=
  let newIds := commentIds.filter (fun id => !state.ignoredCommentIds.contains id)
  { state with ignoredCommentIds := state.ignoredCommentIds ++ newIds }

/-- `tracker.ts` / `addRunRecord`: set `lastRun` to the current time and append
one run record.  The wall-clock reading `new Date().toISOString()` is passed in
as the explicit argument `now`. -/
def addRunRecord (state : BusterState) (commentsFound commentsAddressed : Nat)
    (commitSha : Option String) (now : String) : BusterState :=
  { state with
    lastRun := now
    runs := state.runs ++ [⟨now, commentsFound, commentsAddressed, commitSha⟩] }

/-- `tracker.ts` / `filterUnaddressed`: drop comments whose id is in the
addressed list or in the ignored list. -/
def filterUnaddressed (comments : List PRComment) (state : BusterState) : List PRComment :=
  comments.filter (fun c =>
    !state.addressedCommentIds.contains c.id && !state.ignoredCommentIds.contains c.id)

/-- A single ledger-mutating operation, as exposed by `tracker.ts`. -/
inductive LedgerOp where
  | mark_addressed (ids : List Nat)
  | mark_ignored (ids : List Nat)
  | add_run_record (found addressed : Nat) (sha : Option String) (now : String)
deriving Repr

/-- Apply one ledger operation. -/
def applyOp (s : BusterState) : LedgerOp → BusterState
  | .mark_addressed ids => markAddressed s ids
  | .mark_ignored ids => markIgnored s ids
  | .add_run_record found addressed sha now => addRunRecord s found addressed sha now

/-- Apply a sequence of ledger operations left to right. -/
def applyOps (s : BusterState) (ops : List LedgerOp) : BusterState :=
  ops.foldl applyOp s

/-- `index.ts` / `run` lines 284-289: the eligibility computation of one cycle.
Keep unresolved comments; when an author allow-list is supplied and non-empty
(the code tests `authors?.length`, so a supplied empty list disables the
filter), keep comments whose author is in the list by exact string match; then
drop comments recorded in the ledger (`filterUnaddressed`). -/
def eligibleComments (comments : List PRComment) (authors : Option (List String))
    (state : BusterState) : List PRComment :=
  let unresolved := comments.filter (fun c => !c.isResolved)
  let byAuthor :=
    match authors with
    | some l => if l.isEmpty then unresolved else unresolved.filter (fun c => l.contains c.author)
    | none => unresolved
  filterUnaddressed byAuthor state

/-- The double-quote character, written via its code point. -/
def quoteChar : Char := Char.ofNat 34

/-- `ai.ts` / `runValidation` line 329: the literal `"valid"` (quotes included)
required between the braces by the extraction pattern. -/
def marker_valid : List Char :=
  [quoteChar, 'v', 'a', 'l', 'i', 'd', quoteChar]

/-- `ai.ts` / `runResolveCheck` line 459: the literal `"addressed"` (quotes
included) required between the braces by the extraction pattern. -/
def marker_addressed : List Char :=
  [quoteChar, 'a', 'd', 'd', 'r', 'e', 's', 's', 'e', 'd', quoteChar]

/-- Whether the character list `m` occurs in `s` starting at index `p`. -/
def isSubAt (m s : List Char) (p : Nat) : Bool :=
  (s.drop p).take m.length == m

/-- All start positions of the marker `m` in `s`, in increasing order. -/
def markerPositions (m s : List Char) : List Nat :=
  (List.range s.length).filter (fun p => isSubAt m s p)

/-- All positions of a closing brace in `s`, in increasing order. -/
def closePositions (s : List Char) : List Nat :=
  (List.range s.length).filter (fun q => s.get? q == some (Char.ofNat 125))

/-- Whether the JavaScript regex `\x7b[\s\S]*M[\s\S]*\x7d` (with `M` the marker
`m`) can match starting at index `i` of `s`: `s` has an opening brace at `i`,
an occurrence of `m` strictly after it, and a closing brace at or after the end
of that occurrence. -/
def matchFrom (m s : List Char) (i : Nat) : Bool :=
  (s.get? i == some (Char.ofNat 123)) &&
    (markerPositions m s).any (fun p =>
      decide (i + 1 ≤ p) &&
        (closePositions s).any (fun q => decide (p + m.length ≤ q)))

/-- The JavaScript semantics of `textOutput.match(re)` for the greedy pattern
`\x7b[\s\S]*M[\s\S]*\x7d` used by `ai.ts` (`runValidation` line 329 and
`runResolveCheck` line 459): the match starts at the leftmost position from
which a match is possible; both `[\s\S]*` are greedy, so the chosen marker
occurrence is the last workable one and the match ends at the last closing
brace at or after it.  Returns the matched span, or `none` when the pattern
does not match. -/
def greedyMatch (m s : List Char) : Option (List Char) :=
  match (List.range s.length).find? (fun i => matchFrom m s i) with
  | none => none
  | some i =>
    let ps := (markerPositions m s).filter (fun p =>
      decide (i + 1 ≤ p) &&
        (closePositions s).any (fun q => decide (p + m.length ≤ q)))
    match ps.getLast? with
    | none => none
    | some p =>
      match ((closePositions s).filter (fun q => decide (p + m.length ≤ q))).getLast? with
      | none => none
      | some q => some ((s.drop i).take (q + 1 - i))

/-- The fields of a successfully `JSON.parse`d classifier response that
`runValidation` reads: the JavaScript truthiness of `result.valid` and the
optional `result.reason` string (`none` models an absent field). -/
structure ValidationFields where
  validTruthy : Bool
  reason : Option String

/-- The fields of a successfully `JSON.parse`d resolve-check response that
`runResolveCheck` reads. -/
structure ResolveFields where
  addressedTruthy : Bool
  commitSha : Option String
  explanation : Option String

/-- Return type of `validateComment` / `runValidation` (`ai.ts`). -/
structure ValidationResult where
  valid : Bool
  reason : String
deriving Repr, DecidableEq

/-- `types.ts` / `ResolveResult`. -/
structure ResolveResult where
  addressed : Bool
  commitSha : Option String
  explanation : String
deriving Repr, DecidableEq

/-- `ai.ts` / `runValidation` lines 328-341 (the close handler): extract the
pattern match from the transcript; no match resolves valid, a `JSON.parse`
exception (modelled by the `parse` parameter returning `none`) also resolves
valid; otherwise `valid` is the truthiness of `result.valid` and `reason` is
`result.reason || ''`. -/
def runValidation (parse : List Char → Option ValidationFields)
    (textOutput : List Char) : ValidationResult :=
  match greedyMatch marker_valid textOutput with
  | none => ⟨true, "Could not parse response, assuming valid"⟩
  | some frag =>
    match parse frag with
    | none => ⟨true, "Parse error, assuming valid"⟩
    | some r => ⟨r.validTruthy, r.reason.getD ""⟩

/-- `ai.ts` / `runResolveCheck` lines 458-474 (the close handler): extraction
or parse failure resolves not-addressed; otherwise the parsed fields are
returned (`commitSha ?? undefined`, `explanation || ''`). -/
def runResolveCheck (parse : List Char → Option ResolveFields)
    (textOutput : List Char) : ResolveResult :=
  match greedyMatch marker_addressed textOutput with
  | none => ⟨false, none, "Could not parse AI response"⟩
  | some frag =>
    match parse frag with
    | none => ⟨false, none, "Parse error in AI response"⟩
    | some r => ⟨r.addressedTruthy, r.commitSha, r.explanation.getD ""⟩

/-- The transcript of the specified extraction scenario: a tool-call echo
fragment with `addressed:false` followed by the intended fragment. -/
def c1_transcript : List Char :=
  ("\x7b\"addressed\":false,\"a\":1\x7d\n\x7b\"addressed\":true,\"commitSha\":\"abc123\",\"explanation\":\"fixed\"\x7d").data

/-- The second (intended) fragment of the scenario transcript. -/
def c1_secondFragment : List Char :=
  ("\x7b\"addressed\":true,\"commitSha\":\"abc123\",\"explanation\":\"fixed\"\x7d").data

/-- `github.ts` / `commitAndPush` lines 224-251: `null` when `git status` shows
no changes; otherwise add, commit and push and return the new head commit id —
but any failure (commit error, push rejection) is caught and also returns
`null`, indistinguishable from the no-changes sentinel.  `hasChanges` models
the porcelain-status check, `pushOk` models whether the commit/push commands
succeed, `newSha` the `git rev-parse HEAD` result. -/
def commitAndPush (hasChanges : Bool) (pushOk : Bool) (newSha : String) : Option String :=
  if !hasChanges then none
  else if pushOk then some newSha
  else none

/-- `index.ts` / `run` lines 392-396: the status line printed after
commit-and-push — a push result of `null` is reported as "No changes to
commit". -/
def pushStatusMessage : Option String → String
  | some sha => "Pushed: " ++ sha.take 7
  | none => "No changes to commit"

/-- `index.ts` / `run` lines 398-405: after the AI step, mark every comment of
the fixed batch addressed and append the run record, regardless of the
commit-and-push outcome `sha`. -/
def afterAISegment (state : BusterState) (toFix : List PRComment)
    (commentsFound : Nat) (sha : Option String) (now : String) : BusterState :=
  addRunRecord (markAddressed state (toFix.map (fun c => c.id)))
    commentsFound toFix.length sha now

/-- The identifiers the classification loop collects into `ignoredIds`
(`index.ts` / `run` lines 325-342): the ids of the comments the verdict
classifies invalid. -/
def dismissedIds (verdict : PRComment → Bool) (batch : List PRComment) : List Nat :=
  (batch.filter (fun c => !verdict c)).map (fun c => c.id)

/-- Observable events of one validated cycle, used to reason about crashes:
a comment classification, a ledger write to disk, and the fix action. -/
inductive CycleEvent where
  | classified (id : Nat) (valid : Bool)
  | saved (s : BusterState)
  | acted
deriving Repr, DecidableEq

/-- The classification events of the loop at `index.ts` / `run` lines 325-342,
in batch order.  The loop only accumulates in-memory lists; it performs no
ledger write. -/
def classifyTrace (verdict : PRComment → Bool) (batch : List PRComment) : List CycleEvent :=
  batch.map (fun c => CycleEvent.classified c.id (verdict c))

/-- Events of the validation phase (`index.ts` / `run` lines 321-359): the
classification loop, then — only once the whole batch is classified — a single
`markIgnored` plus `saveState` when any comment was dismissed. -/
def validationPhaseEvents (s : BusterState) (verdict : PRComment → Bool)
    (batch : List PRComment) : List CycleEvent :=
  classifyTrace verdict batch ++
    (if (dismissedIds verdict batch).isEmpty then []
     else [CycleEvent.saved (markIgnored s (dismissedIds verdict batch))])

/-- Events of a validated cycle up to the fix action (`index.ts` / `run` lines
321-375): the validation phase, then the AI fix action unless every comment
was dismissed. -/
def cycleTrace (s : BusterState) (verdict : PRComment → Bool)
    (batch : List PRComment) : List CycleEvent :=
  validationPhaseEvents s verdict batch ++
    (if (batch.filter (fun c => verdict c)).isEmpty then [] else [CycleEvent.acted])

/-- The ledger states written to disk within an event list, in order. -/
def savedStates (evs : List CycleEvent) : List BusterState :=
  evs.filterMap (fun e => match e with | CycleEvent.saved s => some s | _ => none)

/-- The ledger a restarted process reloads after a crash that interrupted the
cycle right after event position `t`: the last state saved so far, or the
state `s0` that was on disk when the cycle began. -/
def reloadedAfter (s0 : BusterState) (evs : List CycleEvent) (t : Nat) : BusterState :=
  ((savedStates (evs.take t)).getLast?).getD s0

/-- Ledger state on disk at the start of the crash scenario. -/
def exS0 : BusterState := ⟨[7], [], "", []⟩

/-- Verdict used in the crash scenario: only comment 102 is valid. -/
def exVerdict : PRComment → Bool := fun c => c.id == 102

/-- First comment of the crash-scenario batch (classified invalid). -/
def cA : PRComment := ⟨101, "a.ts", some 3, "nitpick", "bot-a", "u1", "t1", false⟩

/-- Second comment of the crash-scenario batch (classified valid). -/
def cB : PRComment := ⟨102, "b.ts", some 9, "real bug", "bot-a", "u2", "t2", false⟩

/-- A JSON value as far as the stored ledger record is concerned. -/
inductive JVal where
  | jnull
  | jnums (l : List Nat)
  | jstr (s : String)
  | jrecs (l : List RunRecord)
deriving Repr, DecidableEq

/-- Field lookup in a parsed JSON object (a key-value list); `none` models a
missing field (`undefined`). -/
def jlookup (o : List (String × JVal)) (k : String) : Option JVal :=
  (o.find? (fun kv => kv.1 == k)).map (fun kv => kv.2)

/-- JavaScript truthiness of a field access: `undefined` and `null` are falsy,
an empty string is falsy, arrays are truthy even when empty. -/
def jsTruthy : Option JVal → Bool
  | none => false
  | some JVal.jnull => false
  | some (JVal.jstr s) => s != ""
  | some (JVal.jnums _) => true
  | some (JVal.jrecs _) => true

/-- The object-spread-with-override `\x7b...state, k: v\x7d`: every other field
keeps its value, field `k` becomes `v`.  (Key order differs from JavaScript's;
only `jlookup` behaviour is used.) -/
def setField (o : List (String × JVal)) (k : String) (v : JVal) : List (String × JVal) :=
  o.filter (fun kv => kv.1 != k) ++ [(k, v)]

/-- The fully-empty ledger record returned for a missing or unreadable file. -/
def emptyLedgerObj : List (String × JVal) :=
  [("addressedCommentIds", JVal.jnums []), ("ignoredCommentIds", JVal.jnums []),
   ("lastRun", JVal.jstr ""), ("runs", JVal.jrecs [])]

/-- `tracker.ts` / `loadState` lines 10-38: a missing file or a `JSON.parse`
exception (both modelled as `none`) yields the empty ledger; otherwise the
parsed object is returned with only `ignoredCommentIds` re-written to
`state.ignoredCommentIds || []` — no other field is defaulted. -/
def loadState (file : Option (List (String × JVal))) : List (String × JVal) :=
  match file with
  | none => emptyLedgerObj
  | some state =>
    setField state "ignoredCommentIds"
      (if jsTruthy (jlookup state "ignoredCommentIds")
       then (jlookup state "ignoredCommentIds").getD JVal.jnull
       else JVal.jnums [])

/-- The environment one reconciliation run observes, indexed by run number:
the fetched comments (`none` = fetch threw), the classification verdicts, the
AI outcome, and the git commit-and-push inputs. -/
structure LoopEnv where
  fetch : Nat → Option (List PRComment)
  verdict : Nat → PRComment → Bool
  aiSuccess : Nat → Bool
  hasChanges : Nat → Bool
  pushOk : Nat → Bool
  shaOf : Nat → String
  nowOf : Nat → String

/-- The options of `run` that steer the loop (`types.ts` / `BusterOptions`,
restricted to the fields the loop reads). -/
structure LoopOpts where
  maxRuns : Nat
  dryRun : Bool
  validateComments : Bool
  authors : Option (List String)

/-- Whether an iteration falls through to the next one or breaks the loop. -/
inductive StepOut where
  | halt (s : BusterState)
  | cont (s : BusterState)

/-- One iteration body of the main loop (`index.ts` / `run` lines 268-424),
entered with the already-incremented `runCount`: fetch (failure breaks),
eligibility filter, optional classification with its batch-level ledger save,
the dry-run break, the AI step (failure breaks), commit-and-push, and the
unconditional `markAddressed` + `addRunRecord` + save. -/
def runCycleStep (env : LoopEnv) (o : LoopOpts) (runCount : Nat)
    (state : BusterState) : StepOut :=
  match env.fetch runCount with
  | none => StepOut.halt state
  | some comments =>
    let unaddressed := eligibleComments comments o.authors state
    if unaddressed.isEmpty then
      if runCount < o.maxRuns then StepOut.cont state else StepOut.halt state
    else
      let toFix := if o.validateComments
        then unaddressed.filter (fun c => env.verdict runCount c) else unaddressed
      let ignoredIds := if o.validateComments
        then dismissedIds (env.verdict runCount) unaddressed else []
      let state1 := if ignoredIds.isEmpty then state else markIgnored state ignoredIds
      if o.validateComments && toFix.isEmpty then StepOut.cont state1
      else if o.dryRun then StepOut.halt state1
      else if !env.aiSuccess runCount then StepOut.halt state1
      else
        let sha := commitAndPush (env.hasChanges runCount) (env.pushOk runCount)
          (env.shaOf runCount)
        StepOut.cont (afterAISegment state1 toFix unaddressed.length sha (env.nowOf runCount))

/-- The `while (runCount < maxRuns)` loop of `run`, counting executed
iterations.  Recursion is on the remaining iteration budget. -/
def runLoopAux (env : LoopEnv) (o : LoopOpts) (runCount : Nat) (state : BusterState)
    (iters : Nat) : Nat × BusterState :=
  if _h : runCount < o.maxRuns then
    match runCycleStep env o (runCount + 1) state with
    | StepOut.halt s => (iters + 1, s)
    | StepOut.cont s => runLoopAux env o (runCount + 1) s (iters + 1)
  else (iters, state)
termination_by o.maxRuns - runCount
decreasing_by omega

/-- The main reconciliation loop, started with `runCount = 0`; returns the
number of iterations executed and the final ledger state. -/
def runLoop (env : LoopEnv) (o : LoopOpts) (state : BusterState) : Nat × BusterState :=
  runLoopAux env o 0 state 0

theorem mem_union_applyOp {s : BusterState} {x : Nat} (op : LedgerOp)
    (h : x ∈ s.addressedCommentIds ∨ x ∈ s.ignoredCommentIds) :
    x ∈ (applyOp s op).addressedCommentIds ∨ x ∈ (applyOp s op).ignoredCommentIds := by
  cases op with
  | mark_addressed ids =>
    rcases h with h | h
    · exact Or.inl (by simp [applyOp, markAddressed, List.mem_append, h])
    · exact Or.inr (by simp [applyOp, markAddressed, h])
  | mark_ignored ids =>
    rcases h with h | h
    · exact Or.inl (by simp [applyOp, markIgnored, h])
    · exact Or.inr (by simp [applyOp, markIgnored, List.mem_append, h])
  | add_run_record found addressed sha now =>
    rcases h with h | h
    · exact Or.inl (by simp [applyOp, addRunRecord, h])
    · exact Or.inr (by simp [applyOp, addRunRecord, h])

/-- C4: across every sequence of ledger operations (markAddressed, markIgnored,
addRunRecord), the union of the ledger's addressed and ignored identifier sets
is monotonically non-decreasing: every identifier present before the sequence is
still present after it. -/
theorem ledger_union_monotone (ops : List LedgerOp) (s : BusterState) (x : Nat)
    (h : x ∈ s.addressedCommentIds ∨ x ∈ s.ignoredCommentIds) :
    x ∈ (applyOps s ops).addressedCommentIds ∨ x ∈ (applyOps s ops).ignoredCommentIds := by
  induction ops generalizing s with
  | nil => exact h
  | cons op ops ih =>
    exact ih (applyOp s op) (mem_union_applyOp op h)

theorem ledger_union_monotone_witness :
    42 ∈ (applyOps ⟨[42], [], "", []⟩
        [LedgerOp.mark_ignored [7], LedgerOp.mark_addressed [8]]).addressedCommentIds ∨
      42 ∈ (applyOps ⟨[42], [], "", []⟩
        [LedgerOp.mark_ignored [7], LedgerOp.mark_addressed [8]]).ignoredCommentIds :=
  ledger_union_monotone [LedgerOp.mark_ignored [7], LedgerOp.mark_addressed [8]]
    ⟨[42], [], "", []⟩ 42 (Or.inl (by decide))

/-- C5: for every ledger state and fetched comment list, any comment whose
identifier is already in the ledger's addressed set is absent from the output of
the ledger-filtering step, regardless of its resolved flag. -/
theorem addressed_never_reappears (st : BusterState) (cs : List PRComment)
    (c : PRComment) (h : c.id ∈ st.addressedCommentIds) :
    c ∉ filterUnaddressed cs st := by
  intro hmem
  rw [filterUnaddressed, List.mem_filter] at hmem
  have hfilt := hmem.2
  simp only [Bool.and_eq_true, Bool.not_eq_true', List.contains, List.elem_eq_mem,
    decide_eq_false_iff_not] at hfilt
  exact hfilt.1 h

theorem addressed_never_reappears_witness :
    (⟨42, "a.ts", none, "b", "X", "u", "t", false⟩ : PRComment) ∉
      filterUnaddressed [⟨42, "a.ts", none, "b", "X", "u", "t", false⟩]
        ⟨[42], [], "", []⟩ :=
  addressed_never_reappears ⟨[42], [], "", []⟩
    [⟨42, "a.ts", none, "b", "X", "u", "t", false⟩]
    ⟨42, "a.ts", none, "b", "X", "u", "t", false⟩ (by decide)

theorem contains_markAddressed_of_mem (s : BusterState) (ids : List Nat)
    (x : Nat) (h : x ∈ ids) :
    x ∈ (markAddressed s ids).addressedCommentIds := by
  by_cases hx : x ∈ s.addressedCommentIds
  · simp [markAddressed, hx]
  · simp only [markAddressed, List.mem_append, List.mem_filter]
    exact Or.inr ⟨h, by simp [List.contains, List.elem_eq_mem, hx]⟩

theorem contains_markIgnored_of_mem (s : BusterState) (ids : List Nat)
    (x : Nat) (h : x ∈ ids) :
    x ∈ (markIgnored s ids).ignoredCommentIds := by
  by_cases hx : x ∈ s.ignoredCommentIds
  · simp [markIgnored, hx]
  · simp only [markIgnored, List.mem_append, List.mem_filter]
    exact Or.inr ⟨h, by simp [List.contains, List.elem_eq_mem, hx]⟩

theorem filter_not_contains_append (l extra ids : List Nat)
    (hsub : ∀ x ∈ ids, x ∈ extra) :
    ids.filter (fun id => !(l ++ extra.filter (fun id => !l.contains id)).contains id) = [] := by
  rw [List.filter_eq_nil_iff]
  intro x hx
  have hmem : x ∈ l ++ extra.filter (fun id => !l.contains id) := by
    rw [List.mem_append]
    by_cases hl : x ∈ l
    · exact Or.inl hl
    · refine Or.inr (List.mem_filter.mpr ⟨hsub x hx, ?_⟩)
      simp [List.contains, List.elem_eq_mem, hl]
  simp only [List.contains, List.elem_eq_mem, hmem]
  simp [List.mem_append, List.mem_filter, List.contains, List.elem_eq_mem]
  intro hl
  exact ⟨hsub x hx, hl⟩

/-- C10: `markAddressed` and `markIgnored` are idempotent and duplicate-free:
applying the same operation with the same ids twice equals applying it once,
and an identifier already present in the corresponding set is never appended a
second time (its multiplicity in the list is unchanged). -/
theorem mark_ops_idempotent_dupfree (s : BusterState) (ids : List Nat) :
    markAddressed (markAddressed s ids) ids = markAddressed s ids ∧
    markIgnored (markIgnored s ids) ids = markIgnored s ids ∧
    (∀ x, x ∈ s.addressedCommentIds →
      (markAddressed s ids).addressedCommentIds.count x = s.addressedCommentIds.count x) ∧
    (∀ x, x ∈ s.ignoredCommentIds →
      (markIgnored s ids).ignoredCommentIds.count x = s.ignoredCommentIds.count x) := by
  refine ⟨?_, ?_, ?_, ?_⟩
  · have hnil := filter_not_contains_append s.addressedCommentIds ids ids (fun x hx => hx)
    simp only [markAddressed, hnil, List.append_nil]
  · have hnil := filter_not_contains_append s.ignoredCommentIds ids ids (fun x hx => hx)
    simp only [markIgnored, hnil, List.append_nil]
  · intro x hx
    simp only [markAddressed, List.count_append]
    have hx0 : (ids.filter (fun id => !s.addressedCommentIds.contains id)).count x = 0 := by
      rw [List.count_eq_zero]
      intro hmem
      have h2 := (List.mem_filter.mp hmem).2
      simp only [Bool.not_eq_true', List.contains, List.elem_eq_mem,
        decide_eq_false_iff_not] at h2
      exact h2 hx
    omega
  · intro x hx
    simp only [markIgnored, List.count_append]
    have hx0 : (ids.filter (fun id => !s.ignoredCommentIds.contains id)).count x = 0 := by
      rw [List.count_eq_zero]
      intro hmem
      have h2 := (List.mem_filter.mp hmem).2
      simp only [Bool.not_eq_true', List.contains, List.elem_eq_mem,
        decide_eq_false_iff_not] at h2
      exact h2 hx
    omega

theorem mark_ops_idempotent_dupfree_witness :
    markAddressed (markAddressed ⟨[1], [2], "", []⟩ [1, 3]) [1, 3] =
        markAddressed ⟨[1], [2], "", []⟩ [1, 3] ∧
      (markAddressed ⟨[1], [2], "", []⟩ [1, 3]).addressedCommentIds.count 1 =
        ([1] : List Nat).count 1 :=
  ⟨(mark_ops_idempotent_dupfree ⟨[1], [2], "", []⟩ [1, 3]).1,
    (mark_ops_idempotent_dupfree ⟨[1], [2], "", []⟩ [1, 3]).2.2.1 1 (by decide)⟩

theorem mem_eligible_some (cs : List PRComment) (st : BusterState)
    (l : List String) (hl : l ≠ []) (c : PRComment) :
    c ∈ eligibleComments cs (some l) st ↔
      c ∈ cs ∧ c.isResolved = false ∧ c.author ∈ l ∧
        c.id ∉ st.addressedCommentIds ∧ c.id ∉ st.ignoredCommentIds := by
  obtain ⟨a, as, rfl⟩ : ∃ a as, l = a :: as := by
    cases l with
    | nil => exact absurd rfl hl
    | cons a as => exact ⟨a, as, rfl⟩
  simp only [eligibleComments, filterUnaddressed, List.isEmpty_cons, Bool.false_eq_true,
    if_false, List.mem_filter, Bool.and_eq_true, Bool.not_eq_true', List.contains,
    List.elem_eq_mem, decide_eq_false_iff_not, decide_eq_true_eq]
  tauto

theorem mem_eligible_none (cs : List PRComment) (st : BusterState) (c : PRComment) :
    c ∈ eligibleComments cs none st ↔
      c ∈ cs ∧ c.isResolved = false ∧
        c.id ∉ st.addressedCommentIds ∧ c.id ∉ st.ignoredCommentIds := by
  simp only [eligibleComments, filterUnaddressed, List.mem_filter, Bool.and_eq_true,
    Bool.not_eq_true', List.contains, List.elem_eq_mem, decide_eq_false_iff_not]
  tauto

/-- C3: the eligible set is exactly the unresolved comments whose author passes
the (case-sensitive, exact-match) allow-list when one is supplied and whose id
is in neither ledger set; on the specified scenario (fetched comments 1
unresolved by X, 2 resolved, 3 unresolved by Y; ledger addressed = [3];
allow-list [X]) the eligible set is exactly comment 1; and under allow-list
["bot-a"] no comment authored by "human-b" is ever eligible. -/
theorem eligibility_characterization :
    (∀ (cs : List PRComment) (st : BusterState) (l : List String), l ≠ [] →
      ∀ c, c ∈ eligibleComments cs (some l) st ↔
        c ∈ cs ∧ c.isResolved = false ∧ c.author ∈ l ∧
          c.id ∉ st.addressedCommentIds ∧ c.id ∉ st.ignoredCommentIds) ∧
    (∀ (cs : List PRComment) (st : BusterState) (c : PRComment),
      c ∈ eligibleComments cs none st ↔
        c ∈ cs ∧ c.isResolved = false ∧
          c.id ∉ st.addressedCommentIds ∧ c.id ∉ st.ignoredCommentIds) ∧
    eligibleComments
        [⟨1, "f.ts", none, "b1", "X", "u1", "t1", false⟩,
         ⟨2, "f.ts", none, "b2", "X", "u2", "t2", true⟩,
         ⟨3, "f.ts", none, "b3", "Y", "u3", "t3", false⟩]
        (some ["X"]) ⟨[3], [], "", []⟩ =
      [⟨1, "f.ts", none, "b1", "X", "u1", "t1", false⟩] ∧
    (∀ (cs : List PRComment) (st : BusterState) (c : PRComment),
      c ∈ eligibleComments cs (some ["bot-a"]) st → c.author ≠ "human-b") := by
  refine ⟨mem_eligible_some, mem_eligible_none, by decide, ?_⟩
  intro cs st c hmem
  have hc := (mem_eligible_some cs st ["bot-a"] (by decide) c).mp hmem
  have : c.author = "bot-a" := by simpa using hc.2.2.1
  rw [this]
  decide

theorem eligibility_characterization_witness :
    (⟨1, "f.ts", none, "b1", "X", "u1", "t1", false⟩ : PRComment) ∈
      eligibleComments
        [⟨1, "f.ts", none, "b1", "X", "u1", "t1", false⟩,
         ⟨2, "f.ts", none, "b2", "X", "u2", "t2", true⟩,
         ⟨3, "f.ts", none, "b3", "Y", "u3", "t3", false⟩]
        (some ["X"]) ⟨[3], [], "", []⟩ :=
  (eligibility_characterization.1
      [⟨1, "f.ts", none, "b1", "X", "u1", "t1", false⟩,
       ⟨2, "f.ts", none, "b2", "X", "u2", "t2", true⟩,
       ⟨3, "f.ts", none, "b3", "Y", "u3", "t3", false⟩]
      ⟨[3], [], "", []⟩ ["X"] (by decide)
      ⟨1, "f.ts", none, "b1", "X", "u1", "t1", false⟩).mpr (by decide)

/-- C1 (code bug): on the specified two-fragment transcript the extraction
regex of `runValidation` / `runResolveCheck` — which is greedy, `\x7b[\s\S]*
"addressed"[\s\S]*\x7d` — matches the span from the first opening brace to the
last closing brace of the whole transcript, i.e. the entire transcript, which
is not the second (intended) fragment.  The spec and the repository's own
IMPROVEMENTS.md require a non-greedy match selecting the intended fragment. -/
theorem greedy_extraction_spans_whole_transcript :
    greedyMatch marker_addressed c1_transcript = some c1_transcript ∧
    c1_transcript ≠ c1_secondFragment := by
  constructor
  · decide
  · decide

/-- C7: whenever no structured record can be extracted from the transcript or
the extracted span fails to parse (the composition of extraction and parse is
`none`), the validity classifier fails open to `valid = true` and the
resolution checker fails open to `addressed = false`. -/
theorem parse_failure_fails_open (pv : List Char → Option ValidationFields)
    (pr : List Char → Option ResolveFields) (s t : List Char)
    (hs : (greedyMatch marker_valid s).bind pv = none)
    (ht : (greedyMatch marker_addressed t).bind pr = none) :
    (runValidation pv s).valid = true ∧ (runResolveCheck pr t).addressed = false := by
  constructor
  · rw [runValidation]
    cases hm : greedyMatch marker_valid s with
    | none => rfl
    | some frag =>
      rw [hm] at hs
      have hp : pv frag = none := by simpa using hs
      simp only [hp]
  · rw [runResolveCheck]
    cases hm : greedyMatch marker_addressed t with
    | none => rfl
    | some frag =>
      rw [hm] at ht
      have hp : pr frag = none := by simpa using ht
      simp only [hp]

theorem parse_failure_fails_open_witness :
    (runValidation (fun _ => none) "thinking aloud, no record here".data).valid = true ∧
    (runResolveCheck (fun _ => none) "tool call trace only".data).addressed = false :=
  parse_failure_fails_open (fun _ => none) (fun _ => none)
    "thinking aloud, no record here".data "tool call trace only".data rfl rfl

/-- C2 (code bug): when the working tree has changes and the push is rejected,
`commitAndPush` catches the error and returns the `null` sentinel — the same
value as "no changes to commit" — so the loop reports "No changes to commit"
and still marks the whole batch (here comment 42) addressed, even though the
fix never left the local tree. -/
theorem push_failure_still_marks_addressed :
    commitAndPush true false "deadbee1234" = none ∧
    pushStatusMessage (commitAndPush true false "deadbee1234") = "No changes to commit" ∧
    (afterAISegment ⟨[], [], "", []⟩ [⟨42, "f.ts", none, "b", "X", "u", "t", false⟩] 1
        (commitAndPush true false "deadbee1234") "2026-02-03").addressedCommentIds = [42] := by
  refine ⟨rfl, rfl, by decide⟩

/-- C6 (counterexample): in a validated cycle over the batch [cA, cB] where cA
(id 101) is classified invalid, a crash right after cA's classification — mid
batch, before cB is classified — reloads the ledger that was on disk at cycle
start, in which id 101 is not recorded as ignored: the classification work is
lost, because the code persists the dismissed identifiers only once, after the
whole batch is classified. -/
theorem mid_batch_crash_loses_classification :
    (cycleTrace exS0 exVerdict [cA, cB]).take 1 = [CycleEvent.classified 101 false] ∧
    reloadedAfter exS0 (cycleTrace exS0 exVerdict [cA, cB]) 1 = exS0 ∧
    101 ∉ exS0.ignoredCommentIds := by
  refine ⟨by decide, by decide, by decide⟩

theorem savedStates_append (a b : List CycleEvent) :
    savedStates (a ++ b) = savedStates a ++ savedStates b := by
  simp [savedStates, List.filterMap_append]

theorem savedStates_classifyTrace (verdict : PRComment → Bool) (batch : List PRComment) :
    savedStates (classifyTrace verdict batch) = [] := by
  induction batch with
  | nil => rfl
  | cons c cs ih =>
    simp [savedStates, classifyTrace, List.filterMap_cons]

/-- C6 (amended): in a validated cycle, the dismissed identifiers are appended
to the ledger's ignored set and persisted in a single batch-level save that
happens after the whole classification loop and before the fix action; a
failure after that save and before the action step reloads a ledger with all
dismissed identifiers recorded and the remaining valid comments still
eligible — but a crash mid-batch (at or before the end of the classification
loop) reloads the cycle-start ledger, losing that batch's classification
work. -/
theorem batch_level_checkpoint (s0 : BusterState) (verdict : PRComment → Bool)
    (batch : List PRComment) (hne : dismissedIds verdict batch ≠ []) :
    cycleTrace s0 verdict batch =
      (classifyTrace verdict batch ++
        [CycleEvent.saved (markIgnored s0 (dismissedIds verdict batch))]) ++
        (if (batch.filter (fun c => verdict c)).isEmpty then [] else [CycleEvent.acted]) ∧
    reloadedAfter s0 (cycleTrace s0 verdict batch) (batch.length + 1) =
      markIgnored s0 (dismissedIds verdict batch) ∧
    (∀ x ∈ dismissedIds verdict batch,
      x ∈ (markIgnored s0 (dismissedIds verdict batch)).ignoredCommentIds) ∧
    (∀ k, k ≤ batch.length → reloadedAfter s0 (cycleTrace s0 verdict batch) k = s0) ∧
    (∀ c ∈ batch, verdict c = true → c.id ∉ s0.addressedCommentIds →
      c.id ∉ s0.ignoredCommentIds → c.id ∉ dismissedIds verdict batch →
      filterUnaddressed [c] (markIgnored s0 (dismissedIds verdict batch)) = [c]) := by
  have hEmp : (dismissedIds verdict batch).isEmpty = false := by
    cases hd : dismissedIds verdict batch with
    | nil => exact absurd hd hne
    | cons a l => rfl
  have h1 : cycleTrace s0 verdict batch =
      (classifyTrace verdict batch ++
        [CycleEvent.saved (markIgnored s0 (dismissedIds verdict batch))]) ++
        (if (batch.filter (fun c => verdict c)).isEmpty then [] else [CycleEvent.acted]) := by
    simp only [cycleTrace, validationPhaseEvents, hEmp, Bool.false_eq_true, if_false]
  have hlen : (classifyTrace verdict batch ++
      [CycleEvent.saved (markIgnored s0 (dismissedIds verdict batch))]).length =
      batch.length + 1 := by
    simp [classifyTrace]
  refine ⟨h1, ?_, ?_, ?_, ?_⟩
  · rw [reloadedAfter, h1, List.take_left' hlen, savedStates_append,
      savedStates_classifyTrace, List.nil_append]
    rfl
  · intro x hx
    exact contains_markIgnored_of_mem s0 (dismissedIds verdict batch) x hx
  · intro k hk
    rw [reloadedAfter, h1, List.append_assoc,
      List.take_append_of_le_length (by simpa [classifyTrace] using hk)]
    rw [classifyTrace, ← List.map_take, ← classifyTrace, savedStates_classifyTrace]
    rfl
  · intro c _hc hv ha hi hd
    have hmem : c.id ∉ (markIgnored s0 (dismissedIds verdict batch)).ignoredCommentIds := by
      simp only [markIgnored, List.mem_append, List.mem_filter]
      rintro (h | ⟨h, _⟩)
      exacts [hi h, hd h]
    have haddr : (markIgnored s0 (dismissedIds verdict batch)).addressedCommentIds =
        s0.addressedCommentIds := rfl
    simp [filterUnaddressed, List.contains, List.elem_eq_mem, haddr, ha, hmem]

theorem batch_level_checkpoint_witness :
    reloadedAfter exS0 (cycleTrace exS0 exVerdict [cA, cB]) 3 =
      markIgnored exS0 (dismissedIds exVerdict [cA, cB]) :=
  (batch_level_checkpoint exS0 exVerdict [cA, cB] (by decide)).2.1

theorem jlookup_setField_self (o : List (String × JVal)) (k : String) (v : JVal) :
    jlookup (setField o k v) k = some v := by
  have h1 : (o.filter (fun kv => kv.1 != k)).find? (fun kv => kv.1 == k) = none := by
    rw [List.find?_eq_none]
    intro kv hkv
    have hne := (List.mem_filter.mp hkv).2
    simp only [bne_iff_ne, ne_eq, decide_eq_true_eq] at hne
    simp [hne]
  simp [jlookup, setField, List.find?_append, h1]

theorem jlookup_setField_ne (o : List (String × JVal)) (k kq : String) (v : JVal)
    (h : kq ≠ k) : jlookup (setField o k v) kq = jlookup o kq := by
  induction o with
  | nil =>
    simp [jlookup, setField, List.find?_cons, show (k == kq) = false by
      simp [Ne.symm h]]
  | cons kv o ih =>
    simp only [jlookup, setField] at ih ⊢
    by_cases hk : kv.1 = k
    · have hq : (kv.1 != k) = false := by simp [hk]
      have hp : (kv.1 == kq) = false := by simp [hk, Ne.symm h]
      simp only [List.filter_cons, hq, Bool.false_eq_true, if_false, List.find?_cons, hp]
      exact ih
    · have hq : (kv.1 != k) = true := by simp [hk]
      by_cases hp : kv.1 = kq
      · have hpk : (fun kv : String × JVal => kv.1 == kq) kv = true := by simp [hp]
        rw [List.filter_cons, if_pos hq, List.cons_append,
          @List.find?_cons_of_pos _ (fun kv => kv.1 == kq) kv
            (List.filter (fun kv => kv.1 != k) o ++ [(k, v)]) hpk,
          @List.find?_cons_of_pos _ (fun kv => kv.1 == kq) kv o hpk]
      · have hpk : ¬ (fun kv : String × JVal => kv.1 == kq) kv = true := by simp [hp]
        rw [List.filter_cons, if_pos hq, List.cons_append,
          @List.find?_cons_of_neg _ (fun kv => kv.1 == kq) kv
            (List.filter (fun kv => kv.1 != k) o ++ [(k, v)]) hpk,
          @List.find?_cons_of_neg _ (fun kv => kv.1 == kq) kv o hpk]
        exact ih

/-- C8 (counterexample): a stored ledger record written without the `runs`
field — e.g. `\x7b"addressedCommentIds":[7]\x7d` — loads with `runs` still
absent (`undefined`), not defaulted to the empty sequence: only the
ignored-identifier field is defaulted by `loadState`. -/
theorem missing_runs_field_not_defaulted :
    jlookup (loadState (some [("addressedCommentIds", JVal.jnums [7])])) "runs" = none ∧
    jlookup (loadState (some [("addressedCommentIds", JVal.jnums [7])])) "runs" ≠
      some (JVal.jrecs []) := by
  refine ⟨by decide, by decide⟩

/-- C8 (amended): loading never throws — a missing or unparsable record loads
as the fully-empty ledger, and a record missing the ignored-identifier field
(the one field added by a later schema version) gets it defaulted to the empty
list; the remaining fields (addressed identifiers, run records, last-run
timestamp) are passed through unchanged, so a record missing them loads with
those fields still absent rather than defaulted. -/
theorem loadState_backward_compat :
    loadState none = emptyLedgerObj ∧
    (∀ o, jlookup o "ignoredCommentIds" = none →
      jlookup (loadState (some o)) "ignoredCommentIds" = some (JVal.jnums [])) ∧
    (∀ o, jlookup (loadState (some o)) "addressedCommentIds" =
      jlookup o "addressedCommentIds") ∧
    (∀ o, jlookup (loadState (some o)) "lastRun" = jlookup o "lastRun") ∧
    (∀ o, jlookup (loadState (some o)) "runs" = jlookup o "runs") := by
  refine ⟨rfl, ?_, ?_, ?_, ?_⟩
  · intro o ho
    have hset : loadState (some o) = setField o "ignoredCommentIds" (JVal.jnums []) := by
      simp [loadState, ho, jsTruthy]
    rw [hset, jlookup_setField_self]
  · intro o
    exact jlookup_setField_ne o _ _ _ (by decide)
  · intro o
    exact jlookup_setField_ne o _ _ _ (by decide)
  · intro o
    exact jlookup_setField_ne o _ _ _ (by decide)

theorem loadState_backward_compat_witness :
    jlookup (loadState (some [("addressedCommentIds", JVal.jnums [1])]))
      "ignoredCommentIds" = some (JVal.jnums []) :=
  loadState_backward_compat.2.1 [("addressedCommentIds", JVal.jnums [1])] (by decide)

theorem runLoopAux_iters_le (env : LoopEnv) (o : LoopOpts) :
    ∀ n runCount s iters, o.maxRuns - runCount ≤ n →
      (runLoopAux env o runCount s iters).1 ≤ iters + (o.maxRuns - runCount) := by
  intro n
  induction n with
  | zero =>
    intro rc s it h
    rw [runLoopAux]
    have hge : ¬ rc < o.maxRuns := by omega
    rw [dif_neg hge]
    exact Nat.le_add_right it _
  | succ n ih =>
    intro rc s it h
    rw [runLoopAux]
    by_cases hlt : rc < o.maxRuns
    · rw [dif_pos hlt]
      cases hstep : runCycleStep env o (rc + 1) s with
      | halt s2 =>
        show it + 1 ≤ it + (o.maxRuns - rc)
        omega
      | cont s2 =>
        show (runLoopAux env o (rc + 1) s2 (it + 1)).1 ≤ it + (o.maxRuns - rc)
        have hle := ih (rc + 1) s2 (it + 1) (by omega)
        omega
    · rw [dif_neg hlt]
      exact Nat.le_add_right it _

/-- C9: for every environment (even one in which new eligible comments keep
appearing on every fetch), every option set and every start state, the
reconciliation loop executes at most `maxRuns` iterations — it is a total
function whose iteration count is bounded by the maximum-run option. -/
theorem runLoop_bounded_iterations (env : LoopEnv) (o : LoopOpts) (s : BusterState) :
    (runLoop env o s).1 ≤ o.maxRuns := by
  have h := runLoopAux_iters_le env o o.maxRuns 0 s 0 (by omega)
  simpa [runLoop] using h
